import Mathlib

/-!
Verification development for the `node-concurrent-worker-tasks` repository.

The repository ships two generations of a bounded worker-pool dispatcher:

* `src/index.js` — a `WorkerPool` whose `run`/`runTask` path shifts a worker
  from the pool, performs a memory-pressure admission check
  (`getMemPercent`), executes the task on the worker and conditionally pushes
  the worker back (`executeWorker`), with `terminateExcessWorkers` /
  `terminateAllWorkers` for teardown.  We embed it in namespace `IndexPool`.

* `src/unnamed/part_001` (the active, uncommented class) — a queue-based
  `WorkerPool` with a strict-FIFO `taskQueue`, `run` pushing submissions onto
  the queue, `assignTasks` dispatching the queue head to the first idle
  worker, and `handleWorkerResult` releasing workers and draining the queue.
  We embed it in namespace `QueuePool`.

Machine arithmetic: the JavaScript memory computations are modelled exactly
over `ℚ` (the source works on `Number`s whose rounding to one decimal is the
only discretisation, modelled by `toFixed1`).  JavaScript promises are
modelled by ghost logs (`submitted`, `settled`, `events`, `posted`) recording
the externally observable callback activity; a JavaScript crash (property
access on `undefined`) or non-termination is modelled by `Option.none`.
-/

namespace WorkerTasks

/-- JavaScript runtime value as far as the admission check is concerned:
`getMemPercent` in `src/index.js` can evaluate to a boolean (its normal
return `memPercent < this.memThreshold`) while the specification talks about
returning the computed percentage, so we keep both shapes in one type. -/
inductive JsVal where
  | bool (b : Bool)
  | num (q : ℚ)
  deriving DecidableEq

/-- Model of `CustomError` (`src/types/customError`): a message plus an
optional numeric `status`; a plain JavaScript `Error` carries no status,
modelled by `none` (so that `err.status || 500` reads `getD 500`). -/
structure CustomError where
  message : String
  status : Option Nat
  deriving DecidableEq

/-- JavaScript `Number.prototype.toFixed(1)` on a nonnegative rational:
round to one decimal, ties away from zero (towards plus infinity for the
nonnegative inputs that occur here).  The source then compares the resulting
numeric string against numbers, which JavaScript coerces back to the rounded
number, so the whole round trip is this rational. -/
def toFixed1 (x : ℚ) : ℚ := (⌊x * 10 + 1 / 2⌋ : ℚ) / 10

namespace IndexPool

/-- Worker handle of `src/index.js`: `{ id, worker }`.  The underlying
`worker_threads.Worker` object is opaque; its identity is carried by `id`
(the source builds ids `-1-`, `-2-`, …, modelled as `1, 2, …`). -/
structure IWorker where
  id : Nat
  deriving DecidableEq

/-- Constructor configuration of the `src/index.js` `WorkerPool`
(`poolSize`, `memThreshold`, `returnLog`) together with `minWorkers`,
which is read by `terminateExcessWorkers` but never assigned anywhere in the
class: the JavaScript value is `undefined`, modelled by `none`. -/
structure IConfig where
  poolSize : Nat
  memThreshold : ℚ
  returnLog : Bool
  minWorkers : Option Nat
  deriving DecidableEq

/-- Mutable state of a `src/index.js` pool instance: the worker array plus
ghost logs that record externally observable events — ids passed to
`new Worker` (`created`), ids whose `worker.terminate()` ran (`terminated`),
tasks handed to `worker.postMessage` (`posted`), and the module-level
`tasks` array appended by `createLog` (`tasksLog`). -/
structure IState where
  pool : List IWorker
  created : List Nat
  terminated : List Nat
  posted : List Nat
  tasksLog : List Nat
  deriving DecidableEq

/-- Memory readings consumed by `getMemPercent`: `freeMemoryAvailable` is the
module-level constant `os.freemem()` sampled at load time (line 4 of
`src/index.js`), `freeMemory` is the current `os.freemem()` reading. -/
structure MemInput where
  freeMemoryAvailable : ℚ
  freeMemory : ℚ
  deriving DecidableEq

/-- Outcome of handing one task to one worker, the external behaviour of the
worker thread during `executeWorker`: it answers with a `message` carrying
`data`, it raises an `error` event, or `postMessage` itself throws. -/
inductive ExecOutcome where
  | success (data : Nat)
  | failure
  | postFail
  deriving DecidableEq

/-- Diagnostic log object built by `createLog` in `src/index.js`. -/
structure LogInfo where
  worker : Nat
  poolLength : Nat
  executed : Nat
  deriving DecidableEq

/-- Successful `runTask` payload: the worker's `result` object after
`runTask` attached `result.log` (when `returnLog`) and `result.capacity`
(the value returned by `getMemPercent`). -/
structure TaskResult where
  data : Nat
  log : Option LogInfo
  capacity : JsVal
  deriving DecidableEq

/-- Response shape of `run` in `src/index.js`: a `status`, the spread
`runTask` payload on success, or the caught error's `message`. -/
structure RunResult where
  status : Nat
  result : Option TaskResult
  message : Option String
  deriving DecidableEq

/-- The memory-used percentage exactly as `getMemPercent` computes it:
`((freeMemoryAvailable - freeMemory) / freeMemoryAvailable * 100).toFixed(1)`
— the baseline is the free memory sampled at module load, not the machine's
total memory. -/
def memPercentCode (mem : MemInput) : ℚ :=
  toFixed1 ((mem.freeMemoryAvailable - mem.freeMemory) / mem.freeMemoryAvailable * 100)

/-- Modelled from the spec: the admission formula the specification states,
`memoryUsedPercent = (totalAvailable - currentlyFree) / totalAvailable`
with `totalAvailable` the system's total available memory — for comparison
with `memPercentCode`, which the source computes from the startup free-memory
sample instead. -/
def specMemUsedPercent (totalAvailable currentlyFree : ℚ) : ℚ :=
  (totalAvailable - currentlyFree) / totalAvailable * 100

/-- Error message thrown by `getMemPercent` on capacity overload. -/
def capacityMsg : String := "Server capacity is low. Please try again later."

/-- `getMemPercent` from `src/index.js` lines 189-199: computes the rounded
used-memory percentage, throws `CustomError(..., 503)` when it strictly
exceeds `memThreshold`, and otherwise returns the **boolean** comparison
`memPercent < this.memThreshold` (a `JsVal.bool`, not the percentage). -/
def getMemPercent (mem : MemInput) (memThreshold : ℚ) : Except CustomError JsVal :=
  let memPercent := memPercentCode mem
  if memPercent > memThreshold then
    .error ⟨capacityMsg, some 503⟩
  else
    .ok (.bool (decide (memPercent < memThreshold)))

/-- Fresh worker handles pushed by `buildPool`: ids `-1-` … `-poolSize-`. -/
def freshWorkers (n : Nat) : List IWorker :=
  (List.range n).map (fun i => ⟨i + 1⟩)

/-- `buildPool` from `src/index.js` lines 82-96: synchronously constructs
`poolSize` workers and pushes every one of them onto `this.pool`; each
worker's `error` listener only logs, so no creation aborts the loop and no
handle is withheld. -/
def buildPool (cfg : IConfig) (s : IState) : IState :=
  { s with
    pool := s.pool ++ freshWorkers cfg.poolSize
    created := s.created ++ (List.range cfg.poolSize).map (· + 1) }

/-- `addNewWorkerToPool` from `src/index.js` lines 98-129: resolves with
`undefined` (here `none`) when the pool is already full; otherwise spawns a
worker and, once online, pushes it if the pool is still short.  The `ok`
flag models whether the spawn succeeds or the promise rejects with
`CustomError(..., 300)`. -/
def addNewWorkerToPool (cfg : IConfig) (ok : Bool) (s : IState) :
    Except CustomError (Option IWorker) × IState :=
  if s.pool.length ≥ cfg.poolSize then
    (.ok none, s)
  else if ok then
    let w : IWorker := ⟨s.pool.length + 1⟩
    (.ok (some w),
      { s with
        pool := if s.pool.length < cfg.poolSize then s.pool ++ [w] else s.pool
        created := s.created ++ [w.id] })
  else
    (.error ⟨"worker creation failed", some 300⟩, s)

/-- Error message produced by `executeWorker`'s `errorListener`. -/
def execFailMsg : String := "worker failed during task execution"

/-- Error message produced when `worker.postMessage` throws. -/
def postFailMsg : String := "worker failed to post task"

/-- `executeWorker` from `src/index.js` lines 131-177 for a valid handle:
posts the task, and on a `message` resolves with the data and pushes the
worker back only if `pool.length < poolSize`; on an `error` event rejects
without touching the pool (no `terminate`, no replacement — lines 164-167);
when `postMessage` throws it rejects likewise. -/
def executeWorker (cfg : IConfig) (w : IWorker) (task : Nat) (oc : ExecOutcome)
    (s : IState) : Except CustomError Nat × IState :=
  match oc with
  | .success d =>
      (.ok d,
        { s with
          posted := s.posted ++ [task]
          pool := if s.pool.length < cfg.poolSize then s.pool ++ [w] else s.pool })
  | .failure =>
      (.error ⟨execFailMsg, none⟩, { s with posted := s.posted ++ [task] })
  | .postFail =>
      (.error ⟨postFailMsg, none⟩, s)

/-- `createLog` from `src/index.js` lines 179-187: pushes the worker id onto
the module-level `tasks` array and reports the id, current pool length and
cumulative task tally. -/
def createLog (wid : Nat) (s : IState) : LogInfo × IState :=
  (⟨wid, s.pool.length, s.tasksLog.length + 1⟩, { s with tasksLog := s.tasksLog ++ [wid] })

/-- Body of `runTask` from `src/index.js` lines 201-213 after the rebuild
loop: the head worker is **shifted out of the pool before** `getMemPercent`
runs, so a capacity throw leaves the pool one worker short; on success the
log and `capacity` fields are attached to the result. -/
def runTaskCore (cfg : IConfig) (mem : MemInput) (task : Nat) (oc : ExecOutcome)
    (s0 : IState) : Option (Except CustomError TaskResult × IState) :=
  match s0.pool with
  | [] => none
  | w :: rest =>
    let s1 := { s0 with pool := rest }
    match getMemPercent mem cfg.memThreshold with
    | .error e => some (.error e, s1)
    | .ok memStats =>
      match executeWorker cfg w task oc s1 with
      | (.error e, s2) => some (.error e, s2)
      | (.ok d, s2) =>
        if cfg.returnLog then
          let (lg, s3) := createLog w.id s2
          some (.ok ⟨d, some lg, memStats⟩, s3)
        else
          some (.ok ⟨d, none, memStats⟩, s2)

/-- `runTask` from `src/index.js` lines 201-213: the `while` rebuild loop
runs `buildPool` whenever the pool is empty (the loop never terminates when
`poolSize = 0`, modelled by `none`), followed by `runTaskCore`. -/
def runTask (cfg : IConfig) (mem : MemInput) (task : Nat) (oc : ExecOutcome)
    (s : IState) : Option (Except CustomError TaskResult × IState) :=
  if s.pool.isEmpty ∧ cfg.poolSize = 0 then
    none
  else
    runTaskCore cfg mem task oc (if s.pool.isEmpty then buildPool cfg s else s)

/-- `TaskManager.canExecuteTask` from `src/index.js` lines 14-32: pure
version threading `lastTaskTime` explicitly; returns the admission flag and
the updated timestamp state. -/
def canExecuteTask (lastTaskTime : Option Int) (now idleThreshold : Int) :
    Bool × Option Int :=
  match lastTaskTime with
  | none => (true, some now)
  | some t =>
      let canExecute := decide (now - t ≥ idleThreshold)
      (canExecute, if canExecute then some now else some t)

/-- Default `idleThreshold` of the module-level `TaskManager` instance. -/
def idleThresholdDefault : Int := 100

/-- `terminateExcessWorkers` from `src/index.js` lines 215-221: pops and
terminates workers from the tail while `pool.length > this.minWorkers`.
Since `minWorkers` is never assigned, the JavaScript comparison is
`length > undefined`, which is always `false`: with `minWorkers = none` the
loop body never runs. -/
def terminateExcessWorkers (cfg : IConfig) (s : IState) : IState :=
  match cfg.minWorkers with
  | none => s
  | some m =>
      if s.pool.length ≤ m then s
      else
        { s with
          pool := s.pool.take m
          terminated := s.terminated ++ ((s.pool.drop m).map (·.id)).reverse }

/-- `terminateAllWorkers` from `src/index.js` lines 223-228: pops every
worker from the tail and terminates it, emptying the pool. -/
def terminateAllWorkers (s : IState) : IState :=
  { s with
    pool := []
    terminated := s.terminated ++ (s.pool.map (·.id)).reverse }

/-- The `try`/`catch` body of `run` (`src/index.js` lines 68-76) without the
`finally` clause: computes the 200/429 rate status, spreads the `runTask`
payload on success, and converts a thrown error into
`{ status: err.status || 500, message: err.message }`. -/
def runBody (cfg : IConfig) (tmLast : Option Int) (now : Int) (mem : MemInput)
    (task : Nat) (oc : ExecOutcome) (s : IState) :
    Option (RunResult × IState × Option Int) :=
  let rate := canExecuteTask tmLast now idleThresholdDefault
  let status0 : Nat := if rate.1 then 200 else 429
  match runTask cfg mem task oc s with
  | none => none
  | some (.ok tr, s1) => some (⟨status0, some tr, none⟩, s1, rate.2)
  | some (.error e, s1) =>
      some (⟨e.status.getD 500, none, some e.message⟩, s1, rate.2)

/-- `run` from `src/index.js` lines 68-80: the `try`/`catch` body followed by
the `finally` clause, which always invokes `terminateExcessWorkers`. -/
def run (cfg : IConfig) (tmLast : Option Int) (now : Int) (mem : MemInput)
    (task : Nat) (oc : ExecOutcome) (s : IState) :
    Option (RunResult × IState × Option Int) :=
  (runBody cfg tmLast now mem task oc s).map
    (fun r => (r.1, terminateExcessWorkers cfg r.2.1, r.2.2))

/-- State produced by the `WorkerPool` constructor (`src/index.js` lines
44-62): an empty pool immediately populated by `buildPool`; `minWorkers`
stays unassigned. -/
def emptyIState : IState := ⟨[], [], [], [], []⟩

/-- Full constructor effect on the pool state. -/
def constructorState (cfg : IConfig) : IState := buildPool cfg emptyIState

/-- Reachable states of a `src/index.js` pool: the constructor state, closed
under every operation the class exposes — `run` (which internally performs
the rebuild, shift, admission check, execution and the `finally` teardown),
`addNewWorkerToPool`, `terminateAllWorkers`, `terminateExcessWorkers`, and
the `runTask` rebuild `buildPool` (only ever invoked on an empty pool). -/
inductive Reach (cfg : IConfig) : IState → Prop where
  | init : Reach cfg (constructorState cfg)
  | runStep {s s' : IState} {tmLast tm' : Option Int} {now : Int} {mem : MemInput}
      {task : Nat} {oc : ExecOutcome} {r : RunResult} :
      Reach cfg s → run cfg tmLast now mem task oc s = some (r, s', tm') →
      Reach cfg s'
  | addStep {s : IState} (ok : Bool) :
      Reach cfg s → Reach cfg (addNewWorkerToPool cfg ok s).2
  | termAllStep {s : IState} :
      Reach cfg s → Reach cfg (terminateAllWorkers s)
  | termExcessStep {s : IState} :
      Reach cfg s → Reach cfg (terminateExcessWorkers cfg s)
  | rebuildStep {s : IState} :
      Reach cfg s → s.pool = [] → Reach cfg (buildPool cfg s)

end IndexPool

namespace QueuePool

/-- Worker handle of the queue-based pool (`src/unnamed/part_001`, active
class): `{ id, worker, busy }` plus the `resolve` callback that
`assignTasks` stores on the handle while a task is in flight, identified by
the in-flight task's id.  The source destructures `reject` from the queue
entry in `assignTasks` (line 117) but never stores it on the handle, so no
`reject` field exists here either — a faithful omission. -/
structure PWorker where
  id : Nat
  busy : Bool
  resolveTask : Option Nat
  deriving DecidableEq

/-- Task-queue entry pushed by `run`: the payload and its correlation id
(`resolve`/`reject` callbacks are tracked through the ghost settlement log
keyed by `taskId`). -/
structure QEntry where
  task : Nat
  taskId : Nat
  deriving DecidableEq

/-- Observable events of the dispatcher, in program order: `disp w t` when
`assignTasks` posts task `t` to worker `w` (`postMessage`, line 124), and
`clear w` when `handleWorkerResult` sets worker `w`'s `busy` flag back to
`false` (line 82). -/
inductive Ev where
  | disp (wid taskId : Nat)
  | clear (wid : Nat)
  deriving DecidableEq

/-- State of a queue-based pool instance: the worker array and the FIFO
`taskQueue`, plus ghost logs — `submitted` records the `taskId` of every
`run` call in order, `settled` records every promise settlement
(`taskId`, `true` for resolve), and `events` records dispatches and
busy-clears in order. -/
structure PState where
  pool : List PWorker
  taskQueue : List QEntry
  submitted : List Nat
  settled : List (Nat × Bool)
  events : List Ev
  deriving DecidableEq

/-- Helper for `assignTasks`'s `this.pool.find(w => !w.busy)` followed by the
in-place mutation: walks the pool, and at the first non-busy worker sets
`busy := true` and stores the task's resolve callback, returning the updated
pool and the chosen worker's id; `none` when every worker is busy. -/
def assignFirstFree (tid : Nat) : List PWorker → Option (List PWorker × Nat)
  | [] => none
  | w :: ws =>
      if w.busy then
        (assignFirstFree tid ws).map (fun p => (w :: p.1, p.2))
      else
        some ({ w with busy := true, resolveTask := some tid } :: ws, w.id)

/-- Dispatch step of `assignTasks` once the queue head `e` is known: find
the first idle worker; when one exists, mark it busy, store its `resolve`,
drop `e` from the queue and log the `postMessage`. -/
def assignTasksAux (s : PState) (e : QEntry) (rest : List QEntry) : PState :=
  match assignFirstFree e.taskId s.pool with
  | none => s
  | some (pool', wid) =>
      { s with
        pool := pool'
        taskQueue := rest
        events := s.events ++ [.disp wid e.taskId] }

/-- `assignTasks` from `src/unnamed/part_001` lines 113-125: if some worker
is idle and the queue is non-empty, shift the queue **head**, mark the first
idle worker busy, store its `resolve`, and post the task; otherwise do
nothing. -/
def assignTasks (s : PState) : PState :=
  match s.taskQueue with
  | [] => s
  | e :: rest => assignTasksAux s e rest

/-- `run` from `src/unnamed/part_001` lines 39-44: every submission pushes an
entry onto the **tail** of `taskQueue` and then calls `assignTasks`. -/
def runQ (task taskId : Nat) (s : PState) : PState :=
  assignTasks
    { s with
      taskQueue := s.taskQueue ++ [⟨task, taskId⟩]
      submitted := s.submitted ++ [taskId] }

/-- Helper for `handleWorkerResult`'s `this.pool.find(w => w.worker ===
worker)` plus the subsequent mutations: locates the worker by identity, sets
`busy := false`, clears the stored `resolve`, and returns the previous
`resolve` value; `none` models the JavaScript `TypeError` crash when the
worker is not in the pool (`workerItem.busy` on `undefined`). -/
def clearBusy (wid : Nat) : List PWorker → Option (List PWorker × Option Nat)
  | [] => none
  | w :: ws =>
      if w.id = wid then
        some ({ w with busy := false, resolveTask := none } :: ws, w.resolveTask)
      else
        (clearBusy wid ws).map (fun p => (w :: p.1, p.2))

/-- `handleWorkerResult` from `src/unnamed/part_001` lines 80-110: on a
`message` from a worker, set its `busy` flag to `false`; if a `resolve`
callback is stored, resolve that task (recorded as a successful settlement)
and null the callbacks; finally drain the queue via `assignTasks`.  Note the
stored `reject` consulted on line 100 can never be non-null because
`assignTasks` never assigns it. -/
def handleWorkerResult (wid : Nat) (s : PState) : Option PState :=
  match clearBusy wid s.pool with
  | none => none
  | some (pool', r) =>
      let s1 :=
        { s with
          pool := pool'
          events := s.events ++ [.clear wid]
          settled := s.settled ++ (match r with | some tid => [(tid, true)] | none => []) }
      some (assignTasks s1)

/-- The `error` listener installed by `addWorkerToPool`
(`src/unnamed/part_001` line 67): `console.error` only — it settles no
promise, clears no `busy` flag, terminates nothing and triggers no
replacement, so the state is untouched. -/
def handleWorkerError (s : PState) : PState := s

/-- `terminateAllWorkers` from `src/unnamed/part_001` lines 128-134:
terminate every worker's thread and reset `this.pool = []`; the task queue
and ghost logs are untouched. -/
def terminateAllWorkersQ (s : PState) : PState := { s with pool := [] }

/-- External stimuli of the queue-based pool: a caller submission, a
`message` event from a worker, an `error` event from a worker, and a
shutdown call. -/
inductive PAct where
  | submit (task taskId : Nat)
  | message (wid : Nat)
  | wError (wid : Nat)
  | termAll
  deriving DecidableEq

/-- One stimulus step; `none` models a crash of the coordinating control
flow (`handleWorkerResult` on an unknown worker). -/
def stepP (s : PState) : PAct → Option PState
  | .submit t id => some (runQ t id s)
  | .message w => handleWorkerResult w s
  | .wError _ => some (handleWorkerError s)
  | .termAll => some (terminateAllWorkersQ s)

/-- Replay a list of stimuli from a state. -/
def applyTrace (s : PState) : List PAct → Option PState
  | [] => some s
  | a :: tr => (stepP s a).bind (fun s' => applyTrace s' tr)

/-- Pool state right after the constructor built `n` workers (ids
`Worker-1` … `Worker-n`, modelled `1 … n`, all idle). -/
def initP (n : Nat) : PState :=
  ⟨(List.range n).map (fun i => ⟨i + 1, false, none⟩), [], [], [], []⟩

/-- Task ids dispatched so far, in dispatch order, read off the event log. -/
def dispatchedIds (evts : List Ev) : List Nat :=
  evts.filterMap (fun e => match e with | .disp _ t => some t | .clear _ => none)

/-- Replay automaton for the no-double-dispatch property of one worker `w`:
state `(ok, busy)` over the event log, where a `disp` to `w` while `busy`
falsifies `ok`, a `disp` sets `busy`, and a `clear` of `w` resets it. -/
def scanStep (w : Nat) (st : Bool × Bool) : Ev → Bool × Bool
  | .disp v _ => if v = w then (st.1 && !st.2, true) else st
  | .clear v => if v = w then (st.1, false) else st

/-- Full replay of the event log for worker `w`, starting idle. -/
def scanFor (w : Nat) (evts : List Ev) : Bool × Bool :=
  evts.foldl (scanStep w) (true, false)

/-- Dispatcher invariant tying the ghost event log to the pool state:
worker ids are distinct, no worker has ever been dispatched to while its
replayed busy flag was set, each pool member's replayed busy flag matches
its actual `busy` field, and the dispatched task ids followed by the queued
task ids are exactly the submitted task ids in submission order. -/
def InvQ (s : PState) : Prop :=
  (s.pool.map (·.id)).Nodup ∧
  (∀ v : Nat, (scanFor v s.events).1 = true) ∧
  (∀ p ∈ s.pool, (scanFor p.id s.events).2 = p.busy) ∧
  dispatchedIds s.events ++ s.taskQueue.map (·.taskId) = s.submitted

/-- Creation outcome of one `addWorkerToPool` call: the worker comes online,
the synchronous `new Worker` call throws (the promise rejects), or the
worker neither comes online nor throws synchronously (the promise never
settles and the awaiting `buildPool` hangs). -/
inductive COutcome where
  | ok
  | syncThrow
  | neverOnline
  deriving DecidableEq

/-- Rejection message of a synchronously failing `addWorkerToPool`. -/
def createFailMsg : String := "Failed to create worker"

/-- `addWorkerToPool` from `src/unnamed/part_001` lines 58-77: on success
pushes `{ id: pool.length + 1, busy: false }` once the worker is online; on
a synchronous throw the promise rejects (state untouched); the `error`
listener only logs, so an error-before-online leaves the promise pending
forever (`none`). -/
def addWorkerToPool (oc : COutcome) (s : PState) : Option (Except String PState) :=
  match oc with
  | .ok => some (.ok { s with pool := s.pool ++ [⟨s.pool.length + 1, false, none⟩] })
  | .syncThrow => some (.error createFailMsg)
  | .neverOnline => none

/-- The `for` loop of `buildPool` (`src/unnamed/part_001` lines 49-51):
creation `i` uses outcome `f i`; a rejection propagates out of the loop
(carrying the state reached so far), a hang is `none`. -/
def buildPoolAux (f : Nat → COutcome) : Nat → Nat → PState → Option (Except PState PState)
  | _, 0, s => some (.ok s)
  | i, k + 1, s =>
      match addWorkerToPool (f i) s with
      | none => none
      | some (.error _) => some (.error s)
      | some (.ok s') => buildPoolAux f (i + 1) k s'

/-- `buildPool` from `src/unnamed/part_001` lines 47-55: runs the creation
loop inside one `try`; any rejection is caught and logged, the method
returns normally with whatever workers were created before the failure —
the creations after the failing one are never attempted. -/
def buildPoolQ (f : Nat → COutcome) (poolSize : Nat) (s : PState) : Option PState :=
  match buildPoolAux f 0 poolSize s with
  | none => none
  | some (.ok s') => some s'
  | some (.error s') => some s'

/-- Pool states appended by `k` consecutive successful worker creations. -/
def pushFresh (s : PState) : Nat → PState
  | 0 => s
  | k + 1 => pushFresh { s with pool := s.pool ++ [⟨s.pool.length + 1, false, none⟩] } k

end QueuePool

namespace Examples

open IndexPool QueuePool

/-- Pool configuration of the running example: one worker, `memThreshold`
90, diagnostics on, `minWorkers` left unassigned as in the source. -/
def cfgOne : IConfig := ⟨1, 90, true, none⟩

/-- State of a `src/index.js` pool holding its single built worker. -/
def poolOne : IState := ⟨[⟨1⟩], [1], [], [], []⟩

/-- Memory reading over threshold: 100 MB free at startup, 5 MB free now —
95 percent of the baseline used. -/
def memOver : MemInput := ⟨100, 5⟩

/-- Memory reading under threshold: 100 MB free at startup, 95 MB free now —
5 percent of the baseline used. -/
def memUnder : MemInput := ⟨100, 95⟩

/-- Memory reading for the admission-formula comparison: on a machine with
1000 MB total memory, 500 MB were free at module load and 250 MB are free
now. -/
def memHalf : MemInput := ⟨500, 250⟩

/-- Empty queue-pool state (before any worker creation). -/
def emptyPState : PState := ⟨[], [], [], [], []⟩

/-- Creation schedule whose very first worker creation throws. -/
def failFirst : Nat → COutcome := fun i => if i = 0 then .syncThrow else .ok

/-- Creation schedule whose third worker creation (index 2) throws. -/
def failAtTwo : Nat → COutcome := fun i => if i = 2 then .syncThrow else .ok

/-- Stimulus trace for the FIFO and no-double-dispatch witnesses: two
submissions against a single-worker pool, then the worker reports. -/
def fifoTrace : List PAct := [.submit 5 11, .submit 6 12, .message 1]

/-- Final state of `fifoTrace` on `initP 1`: task 11 was dispatched, then
settled, then task 12 was taken from the queue head and dispatched. -/
def fifoFinal : PState :=
  ⟨[⟨1, true, some 12⟩], [], [11, 12], [(11, true)],
   [.disp 1 11, .clear 1, .disp 1 12]⟩

end Examples

section Lemmas

open IndexPool QueuePool Examples

/-- Admission helper: when the rounded used-memory percentage strictly
exceeds the threshold, `getMemPercent` throws the 503 `CustomError`. -/
lemma getMemPercent_over {mem : MemInput} {thr : ℚ} (h : memPercentCode mem > thr) :
    getMemPercent mem thr = .error ⟨capacityMsg, some 503⟩ := by
  rw [getMemPercent, if_pos h]

/-- Admission helper: when the rounded used-memory percentage does not
exceed the threshold, `getMemPercent` returns the boolean comparison. -/
lemma getMemPercent_under {mem : MemInput} {thr : ℚ} (h : ¬ memPercentCode mem > thr) :
    getMemPercent mem thr = .ok (.bool (decide (memPercentCode mem < thr))) := by
  rw [getMemPercent, if_neg h]

/-- The concrete over-threshold reading really exceeds 90 percent. -/
lemma memOver_gt : memPercentCode memOver > (90 : ℚ) := by
  norm_num [memPercentCode, toFixed1, memOver]

/-- The concrete under-threshold reading stays below 90 percent. -/
lemma memUnder_not_gt : ¬ memPercentCode memUnder > (90 : ℚ) := by
  norm_num [memPercentCode, toFixed1, memUnder]

/-- The worker handles pushed by `buildPool` number exactly `poolSize`. -/
lemma freshWorkers_length (n : Nat) : (freshWorkers n).length = n := by
  simp [freshWorkers]

/-- Pool length after `buildPool`. -/
lemma buildPool_pool_length (cfg : IConfig) (s : IState) :
    (buildPool cfg s).pool.length = s.pool.length + cfg.poolSize := by
  simp [buildPool, freshWorkers_length]

/-- `executeWorker` never grows the pool beyond `poolSize` (the push-back on
success is guarded by `pool.length < poolSize`). -/
lemma executeWorker_pool_le {cfg : IConfig} {w : IWorker} {task : Nat}
    {oc : ExecOutcome} {s : IState} (h : s.pool.length ≤ cfg.poolSize) :
    (executeWorker cfg w task oc s).2.pool.length ≤ cfg.poolSize := by
  cases oc with
  | success d =>
      simp only [executeWorker]
      split
      · rename_i hlt
        simp
        omega
      · exact h
  | failure => simpa [executeWorker] using h
  | postFail => simpa [executeWorker] using h

/-- `createLog` does not touch the pool. -/
lemma createLog_pool (wid : Nat) (s : IState) : (createLog wid s).2.pool = s.pool := rfl

/-- `runTaskCore` preserves the upper pool bound. -/
lemma runTaskCore_pool_le {cfg : IConfig} {mem : MemInput} {task : Nat}
    {oc : ExecOutcome} {s0 : IState} {r : Except CustomError TaskResult × IState}
    (h : s0.pool.length ≤ cfg.poolSize)
    (hr : runTaskCore cfg mem task oc s0 = some r) :
    r.2.pool.length ≤ cfg.poolSize := by
  rw [runTaskCore] at hr
  cases hp : s0.pool with
  | nil => rw [hp] at hr; exact absurd hr (by simp)
  | cons w rest =>
    rw [hp] at hr
    have hrest : rest.length ≤ cfg.poolSize := by
      rw [hp] at h
      simp at h
      omega
    have hexec := @executeWorker_pool_le cfg w task oc { s0 with pool := rest } hrest
    simp only [] at hr
    cases hg : getMemPercent mem cfg.memThreshold with
    | error e =>
        rw [hg] at hr
        simp at hr
        rw [← hr]
        exact hrest
    | ok memStats =>
        rw [hg] at hr
        cases he : executeWorker cfg w task oc { s0 with pool := rest } with
        | mk res s2 =>
          rw [he] at hr
          rw [he] at hexec
          cases res with
          | error e =>
              simp at hr
              rw [← hr]
              exact hexec
          | ok d =>
              by_cases hlog : cfg.returnLog = true
              · simp [hlog] at hr
                rw [← hr]
                rw [createLog_pool]
                exact hexec
              · simp [hlog] at hr
                rw [← hr]
                exact hexec

/-- `runTask` preserves the upper pool bound. -/
lemma runTask_pool_le {cfg : IConfig} {mem : MemInput} {task : Nat}
    {oc : ExecOutcome} {s : IState} {r : Except CustomError TaskResult × IState}
    (h : s.pool.length ≤ cfg.poolSize)
    (hr : runTask cfg mem task oc s = some r) :
    r.2.pool.length ≤ cfg.poolSize := by
  rw [runTask] at hr
  split at hr
  · exact absurd hr (by simp)
  · refine runTaskCore_pool_le ?_ hr
    split
    · rename_i hemp
      rw [buildPool_pool_length]
      simp_all [List.isEmpty_iff]
    · exact h

/-- `terminateExcessWorkers` never grows the pool. -/
lemma terminateExcessWorkers_pool_le (cfg : IConfig) (s : IState) :
    (terminateExcessWorkers cfg s).pool.length ≤ s.pool.length := by
  rw [terminateExcessWorkers]
  split
  · exact le_rfl
  · split
    · exact le_rfl
    · simp

/-- `addNewWorkerToPool` respects the upper pool bound. -/
lemma addNewWorkerToPool_pool_le {cfg : IConfig} {ok : Bool} {s : IState}
    (h : s.pool.length ≤ cfg.poolSize) :
    (addNewWorkerToPool cfg ok s).2.pool.length ≤ cfg.poolSize := by
  rw [addNewWorkerToPool]
  split
  · exact h
  · rename_i hge
    have hlt : s.pool.length < cfg.poolSize := by omega
    split
    · simp [if_pos hlt]
      omega
    · exact h

/-- Event-log replay over one appended event. -/
lemma scanFor_append_one (w : Nat) (evts : List Ev) (e : Ev) :
    scanFor w (evts ++ [e]) = scanStep w (scanFor w evts) e := by
  simp [scanFor]

/-- Appending a dispatch event appends its task id to the dispatched list. -/
lemma dispatchedIds_append_disp (evts : List Ev) (wid tid : Nat) :
    dispatchedIds (evts ++ [.disp wid tid]) = dispatchedIds evts ++ [tid] := by
  simp [dispatchedIds]

/-- Appending a busy-clear event leaves the dispatched list unchanged. -/
lemma dispatchedIds_append_clear (evts : List Ev) (wid : Nat) :
    dispatchedIds (evts ++ [.clear wid]) = dispatchedIds evts := by
  simp [dispatchedIds]

/-- Decomposition of a successful `assignFirstFree`: the pool splits into a
busy prefix, the first idle worker (the one selected), and a tail; the
result pool marks exactly that worker busy with the task's resolve stored. -/
lemma assignFirstFree_spec {tid : Nat} {ws ws' : List PWorker} {wid : Nat}
    (h : assignFirstFree tid ws = some (ws', wid)) :
    ∃ l w r, ws = l ++ w :: r ∧ (∀ x ∈ l, x.busy = true) ∧ w.busy = false ∧
      w.id = wid ∧ ws' = l ++ { w with busy := true, resolveTask := some tid } :: r := by
  induction ws generalizing ws' wid with
  | nil => simp [assignFirstFree] at h
  | cons w0 rest ih =>
      rw [assignFirstFree] at h
      by_cases hb : w0.busy = true
      · rw [if_pos hb] at h
        cases hres : assignFirstFree tid rest with
        | none => rw [hres] at h; simp at h
        | some p =>
            cases p with
            | mk pl pwid =>
              rw [hres] at h
              simp at h
              obtain ⟨h1, h2⟩ := h
              subst h1
              subst h2
              obtain ⟨l, w, r, hws, hl, hw, hid, hws'⟩ := ih hres
              refine ⟨w0 :: l, w, r, ?_, ?_, hw, hid, ?_⟩
              · rw [hws]; rfl
              · intro x hx
                rcases List.mem_cons.mp hx with hx0 | hxl
                · rw [hx0]; exact hb
                · exact hl x hxl
              · rw [hws']; rfl
      · rw [if_neg hb] at h
        simp at h
        exact ⟨[], w0, rest, rfl, by simp, by simpa using hb, h.2, by rw [← h.1]; rfl⟩

/-- Decomposition of a successful `clearBusy`: the pool splits into a prefix
of workers with other ids, the first worker carrying the id, and a tail; the
result pool clears exactly that worker, and the returned value is its stored
resolve. -/
lemma clearBusy_spec {wid : Nat} {ws ws' : List PWorker} {rv : Option Nat}
    (h : clearBusy wid ws = some (ws', rv)) :
    ∃ l w r, ws = l ++ w :: r ∧ (∀ x ∈ l, x.id ≠ wid) ∧ w.id = wid ∧
      rv = w.resolveTask ∧
      ws' = l ++ { w with busy := false, resolveTask := none } :: r := by
  induction ws generalizing ws' rv with
  | nil => simp [clearBusy] at h
  | cons w0 rest ih =>
      rw [clearBusy] at h
      by_cases hb : w0.id = wid
      · rw [if_pos hb] at h
        simp at h
        exact ⟨[], w0, rest, rfl, by simp, hb, h.2.symm, by rw [← h.1]; rfl⟩
      · rw [if_neg hb] at h
        cases hres : clearBusy wid rest with
        | none => rw [hres] at h; simp at h
        | some p =>
            cases p with
            | mk pl prv =>
              rw [hres] at h
              simp at h
              obtain ⟨h1, h2⟩ := h
              subst h1
              subst h2
              obtain ⟨l, w, r, hws, hl, hid, hrv, hws'⟩ := ih hres
              refine ⟨w0 :: l, w, r, ?_, ?_, hid, hrv, ?_⟩
              · rw [hws]; rfl
              · intro x hx
                rcases List.mem_cons.mp hx with hx0 | hxl
                · rw [hx0]; exact hb
                · exact hl x hxl
              · rw [hws']; rfl

/-- `assignTasks` preserves the dispatcher invariant: it dispatches only to
the first idle worker, whose replayed busy flag is clear, and moves the
queue head to the end of the dispatch log. -/
lemma assignTasks_inv {s : PState} (h : InvQ s) : InvQ (assignTasks s) := by
  obtain ⟨hnd, hok, hlink, hfifo⟩ := h
  rw [assignTasks]
  cases hq : s.taskQueue with
  | nil => exact ⟨hnd, hok, hlink, hfifo⟩
  | cons e rest =>
    show InvQ (assignTasksAux s e rest)
    rw [assignTasksAux]
    cases haf : assignFirstFree e.taskId s.pool with
    | none => exact ⟨hnd, hok, hlink, hfifo⟩
    | some p =>
      cases p with
      | mk pool' wid =>
        obtain ⟨l, w, r, hws, hlbusy, hwbusy, hwid, hws'⟩ := assignFirstFree_spec haf
        have hwmem : w ∈ s.pool := by rw [hws]; simp
        have hwscan : (scanFor w.id s.events).2 = false := by
          rw [hlink w hwmem, hwbusy]
        have hids : pool'.map (fun p => p.id) = s.pool.map (fun p => p.id) := by
          rw [hws, hws']
          simp
        have hnotr : ∀ p ∈ r, p.id ≠ w.id := by
          intro p hp hcontra
          have h2 : (w.id :: r.map (fun x => x.id)).Nodup := by
            have h3 := hnd
            rw [hws] at h3
            simp only [List.map_append, List.map_cons] at h3
            exact h3.of_append_right
          exact (List.nodup_cons.mp h2).1 (hcontra ▸ List.mem_map.mpr ⟨p, hp, rfl⟩)
        have hnotl : ∀ p ∈ l, (scanFor p.id (s.events ++ [Ev.disp wid e.taskId])).2 = p.busy := by
          intro p hp
          rw [scanFor_append_one, scanStep]
          by_cases hpid : wid = p.id
          · rw [if_pos hpid]
            exact (hlbusy p hp).symm
          · rw [if_neg hpid]
            exact hlink p (by rw [hws]; simp [hp])
        refine ⟨?_, ?_, ?_, ?_⟩
        · simpa [hids] using hnd
        · intro v
          rw [scanFor_append_one, scanStep]
          by_cases hv : wid = v
          · rw [if_pos hv]
            simp
            constructor
            · exact hok v
            · rw [← hv, ← hwid]
              exact hwscan
          · rw [if_neg hv]
            exact hok v
        · intro p hp
          simp only [] at hp
          rw [hws'] at hp
          rcases List.mem_append.mp hp with hpl | hpc
          · exact hnotl p hpl
          · rcases List.mem_cons.mp hpc with hpw | hpr
            · rw [hpw]
              rw [scanFor_append_one, scanStep]
              rw [if_pos (by rw [← hwid])]
            · rw [scanFor_append_one, scanStep]
              have hne : wid ≠ p.id := by
                rw [← hwid]
                exact fun hcontra => hnotr p hpr hcontra.symm
              rw [if_neg hne]
              exact hlink p (by rw [hws]; simp [hpr])
        · simp only []
          rw [dispatchedIds_append_disp, List.append_assoc]
          rw [hq] at hfifo
          simpa using hfifo

/-- `run` (queue implementation) preserves the dispatcher invariant. -/
lemma runQ_inv {s : PState} (task taskId : Nat) (h : InvQ s) :
    InvQ (runQ task taskId s) := by
  obtain ⟨hnd, hok, hlink, hfifo⟩ := h
  refine assignTasks_inv ⟨hnd, hok, hlink, ?_⟩
  simp only [List.map_append, List.map_cons, List.map_nil]
  rw [← List.append_assoc, hfifo]

/-- `handleWorkerResult` preserves the dispatcher invariant. -/
lemma handleWorkerResult_inv {s s' : PState} {wid : Nat} (h : InvQ s)
    (hr : handleWorkerResult wid s = some s') : InvQ s' := by
  obtain ⟨hnd, hok, hlink, hfifo⟩ := h
  rw [handleWorkerResult] at hr
  cases hc : clearBusy wid s.pool with
  | none => rw [hc] at hr; exact absurd hr (by simp)
  | some p =>
    cases p with
    | mk pool' rv =>
      rw [hc] at hr
      simp at hr
      obtain ⟨l, w, r, hws, hlid, hwid, hrv, hws'⟩ := clearBusy_spec hc
      rw [← hr]
      refine assignTasks_inv ⟨?_, ?_, ?_, ?_⟩
      · have hids : pool'.map (fun p => p.id) = s.pool.map (fun p => p.id) := by
          rw [hws, hws']
          simp
        simpa [hids] using hnd
      · intro v
        rw [scanFor_append_one, scanStep]
        by_cases hv : wid = v
        · rw [if_pos hv]
          exact hok v
        · rw [if_neg hv]
          exact hok v
      · intro p hp
        simp only [] at hp
        rw [hws'] at hp
        rw [scanFor_append_one, scanStep]
        have hnotr : ∀ q ∈ r, q.id ≠ w.id := by
          intro q hq hcontra
          have h2 : (w.id :: r.map (fun x => x.id)).Nodup := by
            have h3 := hnd
            rw [hws] at h3
            simp only [List.map_append, List.map_cons] at h3
            exact h3.of_append_right
          exact (List.nodup_cons.mp h2).1 (hcontra ▸ List.mem_map.mpr ⟨q, hq, rfl⟩)
        rcases List.mem_append.mp hp with hpl | hpc
        · rw [if_neg (by rw [← hwid]; exact fun hcontra => hlid p hpl (hcontra.symm.trans hwid))]
          exact hlink p (by rw [hws]; simp [hpl])
        · rcases List.mem_cons.mp hpc with hpw | hpr
          · rw [hpw]
            rw [if_pos (by rw [← hwid])]
          · rw [if_neg (by rw [← hwid]; exact fun hcontra => hnotr p hpr hcontra.symm)]
            exact hlink p (by rw [hws]; simp [hpr])
      · simp only []
        rw [dispatchedIds_append_clear]
        exact hfifo

/-- One dispatcher step preserves the invariant. -/
lemma stepP_inv {s s' : PState} {a : PAct} (h : InvQ s) (hs : stepP s a = some s') :
    InvQ s' := by
  cases a with
  | submit t id =>
      simp [stepP] at hs
      rw [← hs]
      exact runQ_inv t id h
  | message w =>
      exact handleWorkerResult_inv h hs
  | wError w =>
      simp [stepP, handleWorkerError] at hs
      rw [← hs]
      exact h
  | termAll =>
      simp [stepP] at hs
      rw [← hs]
      obtain ⟨hnd, hok, hlink, hfifo⟩ := h
      exact ⟨by simp [terminateAllWorkersQ], hok, by simp [terminateAllWorkersQ], hfifo⟩

/-- Replaying any stimulus trace preserves the invariant. -/
lemma applyTrace_inv {s s' : PState} {tr : List PAct} (h : InvQ s)
    (ha : applyTrace s tr = some s') : InvQ s' := by
  induction tr generalizing s with
  | nil =>
      rw [applyTrace] at ha
      simp at ha
      rw [← ha]
      exact h
  | cons a tr ih =>
      rw [applyTrace] at ha
      cases hs : stepP s a with
      | none => rw [hs] at ha; exact absurd ha (by simp)
      | some s1 =>
          rw [hs] at ha
          simp at ha
          exact ih (stepP_inv h hs) ha

/-- Pool length after `k` consecutive successful worker creations. -/
lemma pushFresh_pool_length (s : PState) (k : Nat) :
    (pushFresh s k).pool.length = s.pool.length + k := by
  induction k generalizing s with
  | zero => rfl
  | succ k ih =>
      rw [pushFresh, ih]
      simp
      omega

/-- The `buildPool` creation loop stops at the first synchronous creation
failure: with creations `i .. i+k-1` succeeding and creation `i+k` throwing,
the loop rejects out carrying exactly the `k` workers created before the
failure. -/
lemma buildPoolAux_stops_at_fail (f : Nat → COutcome) (k : Nat) :
    ∀ (i rem : Nat) (s : PState),
      (∀ j, j < k → f (i + j) = .ok) → f (i + k) = .syncThrow → k < rem →
      buildPoolAux f i rem s = some (.error (pushFresh s k)) := by
  induction k with
  | zero =>
      intro i rem s _ hfail hlt
      cases rem with
      | zero => omega
      | succ r =>
          rw [buildPoolAux]
          have hf : f i = .syncThrow := by simpa using hfail
          rw [hf]
          rfl
  | succ k ih =>
      intro i rem s hok hfail hlt
      cases rem with
      | zero => omega
      | succ r =>
          rw [buildPoolAux]
          have h0 : f i = .ok := by simpa using hok 0 (by omega)
          rw [h0]
          show buildPoolAux f (i + 1) r
              { s with pool := s.pool ++ [⟨s.pool.length + 1, false, none⟩] } =
            some (.error (pushFresh s (k + 1)))
          have hstep := ih (i + 1) r
            { s with pool := s.pool ++ [⟨s.pool.length + 1, false, none⟩] }
            (fun j hj => by
              have hjj := hok (j + 1) (by omega)
              rwa [show i + (j + 1) = i + 1 + j by omega] at hjj)
            (by rwa [show i + (k + 1) = i + 1 + k by omega] at hfail)
            (by omega)
          rw [hstep]
          rfl

/-- The freshly built pool satisfies the invariant. -/
lemma initP_inv (n : Nat) : InvQ (initP n) := by
  refine ⟨?_, fun v => rfl, ?_, rfl⟩
  · simp only [initP, List.map_map]
    exact List.Nodup.map (fun a b hab => by simpa using hab) (List.nodup_range n)
  · intro p hp
    simp [initP] at hp
    obtain ⟨i, _, hpi⟩ := hp
    rw [← hpi]
    rfl

end Lemmas

section Theorems

open IndexPool QueuePool Examples

/-- C1, counterexample.  With one worker in the pool and memory pressure at
95 percent of the startup baseline (threshold 90), `run` does fail with
status 503 and posts no task (`posted` stays empty), but the pool state is
NOT unchanged: the worker that `runTask` shifted out before the capacity
check is never returned, so the pool ends empty while it started with one
worker. -/
theorem c1_capacity_pool_leak_counterexample :
    run cfgOne none 0 memOver 7 (.success 3) poolOne =
      some (⟨503, none, some capacityMsg⟩, ⟨[], [1], [], [], []⟩, some 0) ∧
    poolOne.pool = [⟨1⟩] := by
  refine ⟨?_, rfl⟩
  have hm : getMemPercent memOver 90 = .error ⟨capacityMsg, some 503⟩ :=
    getMemPercent_over memOver_gt
  simp [run, runBody, runTask, runTaskCore, cfgOne, poolOne, hm, canExecuteTask,
        terminateExcessWorkers, idleThresholdDefault]

/-- C1, amended claim: for every `run` call on a non-empty pool whose
computed used-memory percentage (relative to the startup free-memory
baseline) strictly exceeds `memThreshold`, the call fails with the
`CapacityExceeded` message and status 503 and no task is posted to any
worker, but the pool is changed: the head worker, shifted out before the
check, is not returned, so the pool shrinks by exactly that worker. -/
theorem c1_capacity_gate_amended (cfg : IConfig) (tmLast : Option Int) (now : Int)
    (mem : MemInput) (task : Nat) (oc : ExecOutcome) (s : IState)
    (w : IWorker) (rest : List IWorker)
    (hpool : s.pool = w :: rest)
    (hmem : memPercentCode mem > cfg.memThreshold)
    (hmin : cfg.minWorkers = none) :
    run cfg tmLast now mem task oc s =
      some (⟨503, none, some capacityMsg⟩, { s with pool := rest },
        (canExecuteTask tmLast now idleThresholdDefault).2) := by
  have hm := getMemPercent_over hmem
  simp [run, runBody, runTask, runTaskCore, hpool, hm, terminateExcessWorkers, hmin]

/-- C1, witness: the amended theorem applied to the one-worker pool under
95 percent memory pressure. -/
theorem c1_capacity_gate_amended_witness :
    run cfgOne none 0 memOver 7 (.success 3) poolOne =
      some (⟨503, none, some capacityMsg⟩, { poolOne with pool := [] },
        (canExecuteTask none 0 idleThresholdDefault).2) :=
  c1_capacity_gate_amended cfgOne none 0 memOver 7 (.success 3) poolOne
    ⟨1⟩ [] rfl memOver_gt rfl

/-- C5, counterexample.  One worker, memory fine, and the dispatched task's
execution fails: `run` surfaces the failure (status 500), but the failing
worker's execution context is never terminated (`terminated` log unchanged,
still empty) and no replacement worker is created (`created` log unchanged)
— the pool simply ends one worker short. -/
theorem c5_no_replacement_counterexample :
    run cfgOne none 0 memUnder 7 .failure poolOne =
      some (⟨500, none, some execFailMsg⟩, ⟨[], [1], [], [7], []⟩, some 0) ∧
    poolOne.terminated = ([] : List Nat) ∧ poolOne.created = [1] := by
  refine ⟨?_, rfl, rfl⟩
  have hm : getMemPercent memUnder 90 = .ok (.bool (decide (memPercentCode memUnder < 90))) :=
    getMemPercent_under memUnder_not_gt
  simp [run, runBody, runTask, runTaskCore, cfgOne, poolOne, hm, executeWorker, canExecuteTask,
        terminateExcessWorkers, idleThresholdDefault]

/-- C5, amended claim: when a dispatched task's execution fails, the caller
receives the failure (status 500 with the execution-failure message) and the
worker — already removed from the pool at dispatch — is simply not pushed
back; its execution context is NOT terminated and NO replacement worker is
created by the failure path (the final state differs from the initial one
only by the missing head worker and the posted-task log). -/
theorem c5_failure_no_replacement_amended (cfg : IConfig) (tmLast : Option Int)
    (now : Int) (mem : MemInput) (task : Nat) (s : IState)
    (w : IWorker) (rest : List IWorker)
    (hpool : s.pool = w :: rest)
    (hmem : ¬ memPercentCode mem > cfg.memThreshold)
    (hmin : cfg.minWorkers = none) :
    run cfg tmLast now mem task .failure s =
      some (⟨500, none, some execFailMsg⟩,
        { s with pool := rest, posted := s.posted ++ [task] },
        (canExecuteTask tmLast now idleThresholdDefault).2) := by
  have hm := getMemPercent_under hmem
  simp [run, runBody, runTask, runTaskCore, hpool, hm, executeWorker, terminateExcessWorkers, hmin]

/-- C5, witness: the amended theorem applied to the one-worker pool with a
failing execution. -/
theorem c5_failure_no_replacement_amended_witness :
    run cfgOne none 0 memUnder 7 .failure poolOne =
      some (⟨500, none, some execFailMsg⟩,
        { poolOne with pool := [], posted := [7] },
        (canExecuteTask none 0 idleThresholdDefault).2) :=
  c5_failure_no_replacement_amended cfgOne none 0 memUnder 7 poolOne
    ⟨1⟩ [] rfl memUnder_not_gt rfl

/-- C6, counterexample.  On a machine with 1000 MB total memory, 500 MB free
at module load and 250 MB free now: the code's percentage (baseline = the
startup free-memory sample) is 50, not the 75 the spec formula with
`totalAvailable` = total memory gives; and below threshold the check returns
the boolean `true`, which is not the computed percentage. -/
theorem c6_returns_boolean_counterexample :
    getMemPercent memHalf 90 = .ok (.bool true) ∧
    memPercentCode memHalf = 50 ∧
    JsVal.bool true ≠ JsVal.num 50 ∧
    specMemUsedPercent 1000 250 = 75 ∧
    (50 : ℚ) ≠ 75 := by
  have h50 : memPercentCode memHalf = 50 := by
    norm_num [memPercentCode, toFixed1, memHalf]
  refine ⟨?_, h50, by simp, ?_, by norm_num⟩
  · rw [getMemPercent_under (by rw [h50]; norm_num), h50]
    norm_num
  · norm_num [specMemUsedPercent]

/-- C6, amended claim: the capacity check computes
`memoryUsedPercent = (startupFree - currentlyFree) / startupFree * 100`
(rounded to one decimal), where `startupFree` is the free memory sampled at
module load, not the system's total memory; and when the percentage does not
exceed `memThreshold` the check returns the boolean
`memPercent < memThreshold`, not the percentage. -/
theorem c6_capacity_formula_amended (mem : MemInput) (thr : ℚ)
    (h : ¬ memPercentCode mem > thr) :
    getMemPercent mem thr = .ok (.bool (decide (memPercentCode mem < thr))) :=
  getMemPercent_under h

/-- C6, witness: the amended theorem applied to the under-threshold
reading. -/
theorem c6_capacity_formula_amended_witness :
    getMemPercent memUnder 90 = .ok (.bool (decide (memPercentCode memUnder < 90))) :=
  c6_capacity_formula_amended memUnder 90 memUnder_not_gt

/-- C4: for every reachable state of the `src/index.js` pool — under pool
construction, `run` (submission, admission, execution, completion and the
`finally` teardown), `addNewWorkerToPool` (replacement), and both
termination methods — the number of workers satisfies
`0 ≤ |pool| ≤ poolSize`. -/
theorem c4_pool_size_invariant (cfg : IConfig) (s : IState) (h : Reach cfg s) :
    0 ≤ s.pool.length ∧ s.pool.length ≤ cfg.poolSize := by
  refine ⟨Nat.zero_le _, ?_⟩
  induction h with
  | init =>
      rw [constructorState, buildPool_pool_length]
      simp [emptyIState]
  | runStep hstep hrun ih =>
      rename_i s s' tmLast tm' now mem task oc r
      rw [run] at hrun
      cases hb : runBody cfg tmLast now mem task oc s with
      | none => rw [hb] at hrun; exact absurd hrun (by simp)
      | some rb =>
          rw [hb] at hrun
          simp at hrun
          rw [runBody] at hb
          have hs' : s' = terminateExcessWorkers cfg rb.2.1 := by
            rw [← hrun.2.1]
          rw [hs']
          refine le_trans (terminateExcessWorkers_pool_le cfg rb.2.1) ?_
          cases ht : runTask cfg mem task oc s with
          | none => rw [ht] at hb; exact absurd hb (by simp)
          | some p =>
              have hp2 : rb.2.1 = p.2 := by
                rw [ht] at hb
                cases p with
                | mk res st =>
                  cases res <;> simp at hb <;> rw [← hb]
              rw [hp2]
              exact runTask_pool_le ih ht
  | addStep ok hstep ih => exact addNewWorkerToPool_pool_le ih
  | termAllStep hstep ih => simp [terminateAllWorkers]
  | termExcessStep hstep ih =>
      exact le_trans (terminateExcessWorkers_pool_le cfg _) ih
  | rebuildStep hstep hemp ih =>
      rw [buildPool_pool_length, hemp]
      simp

/-- C4, witness: the invariant at the constructor state of the one-worker
configuration, reachable by `Reach.init`. -/
theorem c4_pool_size_invariant_witness :
    0 ≤ (constructorState cfgOne).pool.length ∧
    (constructorState cfgOne).pool.length ≤ cfgOne.poolSize :=
  c4_pool_size_invariant cfgOne (constructorState cfgOne) Reach.init

/-- C8: shutdown is idempotent in both implementations — applying
`terminateAllWorkers` twice equals applying it once (the second call, a
total function, finds an empty pool, pops nothing and terminates nothing),
and after each call the worker set is empty. -/
theorem c8_shutdown_idempotent (s : IState) (p : PState) :
    terminateAllWorkers (terminateAllWorkers s) = terminateAllWorkers s ∧
    (terminateAllWorkers s).pool = [] ∧
    terminateAllWorkersQ (terminateAllWorkersQ p) = terminateAllWorkersQ p ∧
    (terminateAllWorkersQ p).pool = [] := by
  refine ⟨?_, rfl, rfl, rfl⟩
  simp [terminateAllWorkers]

/-- C10: `run`'s `finally` block invokes `terminateExcessWorkers`, but since
`this.minWorkers` is never assigned the loop guard
`pool.length > undefined` is always false: `terminateExcessWorkers` is the
identity on the state, and `run` coincides with its `try`/`catch` body —
`run` never shrinks the pool through this path. -/
theorem c10_terminate_excess_noop (cfg : IConfig) (tmLast : Option Int) (now : Int)
    (mem : MemInput) (task : Nat) (oc : ExecOutcome) (s : IState)
    (hmin : cfg.minWorkers = none) :
    terminateExcessWorkers cfg s = s ∧
    run cfg tmLast now mem task oc s = runBody cfg tmLast now mem task oc s := by
  have hid : ∀ t : IState, terminateExcessWorkers cfg t = t := by
    intro t; simp [terminateExcessWorkers, hmin]
  refine ⟨hid s, ?_⟩
  rw [run]
  cases hb : runBody cfg tmLast now mem task oc s with
  | none => rfl
  | some r => simp [hid]

/-- C10, witness: the identity and the `run` = body equations at the
concrete one-worker scenario. -/
theorem c10_terminate_excess_noop_witness :
    terminateExcessWorkers cfgOne poolOne = poolOne ∧
    run cfgOne none 0 memUnder 7 (.success 3) poolOne =
      runBody cfgOne none 0 memUnder 7 (.success 3) poolOne :=
  c10_terminate_excess_noop cfgOne none 0 memUnder 7 (.success 3) poolOne rfl

/-- C2: strict FIFO.  For every replayed stimulus trace of the queue
implementation (from any built pool), the ghost logs satisfy
`dispatched ++ queued = submitted` in order: every submission is appended to
the queue tail (`run`), every dispatch removes the queue head
(`assignTasks`), the queue is never reshuffled, and hence tasks are
dispatched to workers strictly in submission order — in particular for
tasks submitted while all workers are busy. -/
theorem c2_fifo_order (n : Nat) (tr : List PAct) (s' : PState)
    (h : applyTrace (initP n) tr = some s') :
    dispatchedIds s'.events ++ s'.taskQueue.map (fun e => e.taskId) = s'.submitted :=
  (applyTrace_inv (initP_inv n) h).2.2.2

/-- C2, witness: the FIFO equation after two submissions and one completion
on a single-worker pool. -/
theorem c2_fifo_order_witness :
    dispatchedIds fifoFinal.events ++ fifoFinal.taskQueue.map (fun e => e.taskId) =
      fifoFinal.submitted :=
  c2_fifo_order 1 fifoTrace fifoFinal (by decide)

/-- C3, evaluation at the failing input: one worker, task 42 dispatched to
it, task 43 queued behind it, then the worker raises an `error` event.  The
final state shows `settled = []` — the caller of task 42 is never resolved
NOR rejected (`assignTasks` stores `resolve` but never stores `reject`, and
the `error` listener installed in `addWorkerToPool` only logs) — the worker
stays `busy` forever, and queued task 43 is never serviced. -/
theorem c3_error_drops_task :
    applyTrace (initP 1) [.submit 7 42, .submit 8 43, .wError 1] =
      some ⟨[⟨1, true, some 42⟩], [⟨8, 43⟩], [42, 43], [], [.disp 1 42]⟩ := by
  decide

/-- C7: no double dispatch.  For every replayed stimulus trace and every
worker id `w`, the replay automaton `scanFor` accepts the event log: every
`postMessage` to `w` (a `disp` event, emitted only by `assignTasks`) happens
at a moment when `w`'s replayed busy flag is clear, i.e. a busy worker never
receives a second dispatch before `handleWorkerResult` sets its `busy` flag
back to `false` (a `clear` event). -/
theorem c7_no_double_dispatch (n : Nat) (tr : List PAct) (s' : PState) (w : Nat)
    (h : applyTrace (initP n) tr = some s') :
    (scanFor w s'.events).1 = true :=
  (applyTrace_inv (initP_inv n) h).2.1 w

/-- C7, witness: the dispatch discipline for worker 1 on the concrete
two-submission trace. -/
theorem c7_no_double_dispatch_witness :
    (scanFor 1 fifoFinal.events).1 = true :=
  c7_no_double_dispatch 1 fifoTrace fifoFinal 1 (by decide)

/-- C9, counterexample.  `poolSize = 3` and the very first worker creation
throws: `buildPool` catches and logs the rejection, but the two remaining
creations are never attempted — the pool ends with 0 workers, not the 2 the
claim ("the remaining poolSize - 1 creations still proceed") predicts. -/
theorem c9_abort_counterexample :
    buildPoolQ failFirst 3 emptyPState = some emptyPState ∧
    emptyPState.pool.length = 0 ∧ (0 : Nat) ≠ 2 := by
  decide

/-- C9, amended claim: when worker creation `k` (0-based) of `buildPool`
fails synchronously after `k` successful creations, the failure is caught
and logged at the `buildPool` level and pool construction stops there:
the remaining `poolSize - k - 1` creations are NOT attempted, leaving a
degraded pool holding exactly the `k` workers created before the failure;
`buildPool` itself returns without throwing. -/
theorem c9_buildpool_abort_amended (f : Nat → COutcome) (k n : Nat) (s : PState)
    (hok : ∀ j, j < k → f j = .ok) (hfail : f k = .syncThrow) (hlt : k < n) :
    buildPoolQ f n s = some (pushFresh s k) ∧
    (pushFresh s k).pool.length = s.pool.length + k := by
  have h := buildPoolAux_stops_at_fail f k 0 n s (by simpa using hok)
    (by simpa using hfail) hlt
  constructor
  · rw [buildPoolQ, h]
  · exact pushFresh_pool_length s k

/-- C9, witness: the amended theorem for a three-worker build whose third
creation fails, leaving two workers. -/
theorem c9_buildpool_abort_amended_witness :
    buildPoolQ failAtTwo 3 emptyPState = some (pushFresh emptyPState 2) ∧
    (pushFresh emptyPState 2).pool.length = emptyPState.pool.length + 2 :=
  c9_buildpool_abort_amended failAtTwo 2 3 emptyPState (by decide) (by decide)
    (by decide)

end Theorems

end WorkerTasks
